import Mathlib

/-!
Verification of the BAR chain-aggregation estimator (`alchemlyb.estimators.bar_.BAR`).

The estimator's `fit` takes a table `u_nk` of reduced potential energies (rows:
samples tagged with an origin-state label; columns: the K lambda states), sorts
the rows by origin-state label, groups them by that label, and for each adjacent
pair of states (k, k+1) extracts forward and reverse work sequences which it
feeds to an external pairwise BAR solver.  The resulting K-1 pairwise estimates
`df_k` (with squared standard errors `ddf_k ** 2`) are assembled into a K×K
antisymmetric difference matrix `delta_f_` and a symmetric uncertainty matrix
`d_delta_f_` by cumulative sums along superdiagonals.

This file is a shallow embedding of that code: energies and labels are rational
numbers, the external solver is an explicit function argument returning
`Except`, and the matrix assembly mirrors the `np.diagflat` accumulation loop.
-/

deriving instance DecidableEq for Except

namespace Alchemlyb

/-- Origin-state / column labels (the lambda values indexing the table). -/
abbrev Label := ℚ

/-- One row of the energy table `u_nk`: the origin-state label carried by the
row index, and the reduced potential of the sample evaluated at each state
(one rational per column). -/
structure Sample where
  label : Label
  u : List ℚ
deriving DecidableEq

/-- The input DataFrame `u_nk`: ordered column labels (the lambda states) and
the list of sample rows; rows are rectangular (one potential per column). -/
structure EnergyTable where
  columns : List Label
  rows : List Sample
  rect : ∀ r ∈ rows, r.u.length = columns.length

/-- The estimator configuration stored by `BAR.__init__` (the Python code wraps
`method` in a one-element tuple of a dict before storing; the wrapping is
irrelevant here and the string is stored as given). -/
structure BARParams where
  maximum_iterations : ℕ
  relative_tolerance : ℚ
  initial_f_k : Option (List ℚ)
  method : String
  verbose : Bool
deriving DecidableEq

/-- The external pairwise solver `pymbar.BAR`, as the code invokes it: it
receives the forward works, the reverse works, `maximum_iterations`,
`relative_tolerance` and `verbose`, and returns `(df, ddf)` or raises. -/
abbrev Solver := List ℚ → List ℚ → ℕ → ℚ → Bool → Except String (ℚ × ℚ)

/-- `u_nk.sort_index(level=...)`: stable sort of the rows by origin-state
label. -/
def sortRows (rows : List Sample) : List Sample :=
  rows.insertionSort (fun a b => a.label ≤ b.label)

/-- The rows whose origin-state label equals `s`, in order. -/
def groupOf (rows : List Sample) (s : Label) : List Sample :=
  rows.filter (fun r => r.label == s)

/-- `groups.get_group(s)`: the rows of state `s`; pandas raises `KeyError`
when no row carries the label `s` (a group with zero samples does not exist
as a groupby key). -/
def get_group (rows : List Sample) (s : Label) : Except String (List Sample) :=
  if (groupOf rows s).isEmpty then .error "KeyError" else .ok (groupOf rows s)

/-- One iteration of the pairwise loop body for chain position `k`: fetch the
group of state `k`, form `w_F = u[:, k+1] - u[:, k]` over it, fetch the group
of state `k+1`, form `w_R = u[:, k] - u[:, k+1]` over it, and call the solver
with the three configured arguments the code passes. -/
def pairStep (solve : Solver) (p : BARParams) (t : EnergyTable) (k : ℕ) :
    Except String (ℚ × ℚ) :=
  match get_group (sortRows t.rows) (t.columns.getD k 0) with
  | .error e => .error e
  | .ok uk =>
    let w_F := uk.map (fun r => r.u.getD (k + 1) 0 - r.u.getD k 0)
    match get_group (sortRows t.rows) (t.columns.getD (k + 1) 0) with
    | .error e => .error e
    | .ok uk1 =>
      let w_R := uk1.map (fun r => r.u.getD k 0 - r.u.getD (k + 1) 0)
      solve w_F w_R p.maximum_iterations p.relative_tolerance p.verbose

/-- The pairwise loop `for k in range(len(N_k) - 1)`: accumulate `deltas`
(the `df` values, in order) and `d_deltas` (the `ddf ** 2` values); the first
raised exception aborts the whole loop. -/
def runPairs (solve : Solver) (p : BARParams) (t : EnergyTable) :
    List ℕ → Except String (List ℚ × List ℚ)
  | [] => .ok ([], [])
  | k :: ks =>
    match pairStep solve p t k with
    | .error e => .error e
    | .ok (df, ddf) =>
      match runPairs solve p t ks with
      | .error e => .error e
      | .ok (ds, dds) => .ok (df :: ds, ddf ^ 2 :: dds)

/-- The data computed by a successful `fit` call: the states (the column
labels) and the two accumulated vectors from which both output matrices are
assembled. -/
structure FitResult where
  states_ : List Label
  deltas : List ℚ
  d_deltas : List ℚ
deriving DecidableEq

/-- `BAR.fit`: sort, group, run the pairwise loop over `range(K - 1)`; any
exception propagates. -/
def fit (solve : Solver) (p : BARParams) (t : EnergyTable) :
    Except String FitResult :=
  match runPairs solve p t (List.range (t.columns.length - 1)) with
  | .error e => .error e
  | .ok (ds, dds) => .ok ⟨t.columns, ds, dds⟩

/-- `deltas[i] + deltas[i + 1 : i + j + 1].sum()`: the cumulative sum spanning
`j + 1` adjacent steps starting at chain position `i`. -/
def outEntry (ds : List ℚ) (i j : ℕ) : ℚ :=
  ds.getD i 0 + ((ds.drop (i + 1)).take j).sum

/-- The vector `out` built for superdiagonal `j + 1`: one entry for each
starting position `i in range(len(deltas) - j)`. -/
def outList (ds : List ℚ) (j : ℕ) : List ℚ :=
  (List.range (ds.length - j)).map (fun i => outEntry ds i j)

/-- `np.diagflat(v, k=d)` as a function matrix: `v` placed on the `d`-th
superdiagonal, zero elsewhere. -/
def diagflat (v : List ℚ) (d : ℕ) (r c : ℕ) : ℚ :=
  if c = r + d ∧ r < v.length then v.getD r 0 else 0

/-- Entrywise matrix addition (`adelta += ...`). -/
def addMat (A B : ℕ → ℕ → ℚ) (r c : ℕ) : ℚ := A r c + B r c

/-- The accumulation loop `for j in range(len(deltas)): adelta +=
np.diagflat(out, k=j+1)`, starting from `np.zeros`. -/
def assemble (ds : List ℚ) : ℕ → ℕ → ℚ :=
  (List.range ds.length).foldl
    (fun A j => addMat A (diagflat (outList ds j) (j + 1))) (fun _ _ => 0)

/-- `delta_f_ = adelta - adelta.T`, as a function of the `deltas` vector. -/
def delta_f_mat (ds : List ℚ) (r c : ℕ) : ℚ :=
  assemble ds r c - assemble ds c r

/-- `ad_delta + ad_delta.T`: the summed-variance matrix whose entrywise square
root is `d_delta_f_`. -/
def varSum (dds : List ℚ) (r c : ℕ) : ℚ :=
  assemble dds r c + assemble dds c r

/-- `d_delta_f_ = np.sqrt(ad_delta + ad_delta.T)`, entrywise. -/
noncomputable def d_delta_f_mat (dds : List ℚ) (r c : ℕ) : ℝ :=
  Real.sqrt (varSum dds r c)

/-- The contiguous slice sum `sum(ds[i : j])`, used to characterize the
assembled matrices. -/
def sumRange (ds : List ℚ) (i j : ℕ) : ℚ := ((ds.drop i).take (j - i)).sum

/-! ### Characterization of the assembled matrices -/

lemma outList_length (ds : List ℚ) (j : ℕ) : (outList ds j).length = ds.length - j := by
  simp [outList]

lemma outList_getD (ds : List ℚ) (j r : ℕ) (h : r < ds.length - j) :
    (outList ds j).getD r 0 = outEntry ds r j := by
  simp [outList, List.getD_eq_getElem?_getD, List.getElem?_map, List.getElem?_range h]

lemma assemble_apply (ds : List ℚ) (r c : ℕ) :
    assemble ds r c = ∑ j ∈ Finset.range ds.length, diagflat (outList ds j) (j + 1) r c := by
  have key : ∀ (n : ℕ) (Z : ℕ → ℕ → ℚ),
      ((List.range n).foldl (fun A j => addMat A (diagflat (outList ds j) (j + 1))) Z) r c
        = Z r c + ∑ j ∈ Finset.range n, diagflat (outList ds j) (j + 1) r c := by
    intro n
    induction n with
    | zero => intro Z; simp
    | succ m ih =>
      intro Z
      rw [List.range_succ, List.foldl_append, List.foldl_cons, List.foldl_nil]
      simp only [addMat]
      rw [ih, Finset.sum_range_succ]
      ring
  rw [assemble, key]
  simp

lemma outEntry_eq_sumRange (ds : List ℚ) (r j : ℕ) (h : r + j + 1 ≤ ds.length) :
    outEntry ds r j = sumRange ds r (r + j + 1) := by
  have hr : r < ds.length := by omega
  rw [outEntry, sumRange, show r + j + 1 - r = j + 1 by omega,
    List.drop_eq_getElem_cons hr, List.take_succ_cons, List.sum_cons]
  simp [List.getD_eq_getElem?_getD, List.getElem?_eq_getElem hr]

lemma assemble_eq (ds : List ℚ) (r c : ℕ) :
    assemble ds r c = if r < c ∧ c ≤ ds.length then sumRange ds r c else 0 := by
  rw [assemble_apply]
  by_cases h : r < c ∧ c ≤ ds.length
  · obtain ⟨hrc, hc⟩ := h
    rw [if_pos ⟨hrc, hc⟩,
      Finset.sum_eq_single_of_mem (c - r - 1)
        (Finset.mem_range.mpr (by omega))
        (fun j _ hj => by
          simp only [diagflat, outList_length]
          rw [if_neg]
          omega)]
    simp only [diagflat, outList_length]
    rw [if_pos (by omega), outList_getD ds _ r (by omega),
      outEntry_eq_sumRange ds r (c - r - 1) (by omega),
      show r + (c - r - 1) + 1 = c by omega]
  · rw [if_neg h]
    apply Finset.sum_eq_zero
    intro j hj
    simp only [diagflat, outList_length]
    rw [if_neg]
    rw [Finset.mem_range] at hj
    omega

/-! ### Inversion lemmas for the pairwise loop -/

lemma sumRange_add_eq (ds : List ℚ) (d : ℕ) :
    ∀ i, i + d ≤ ds.length →
      sumRange ds i (i + d) = ∑ k ∈ Finset.Ico i (i + d), ds.getD k 0 := by
  induction d with
  | zero => intro i _; simp [sumRange]
  | succ m ih =>
    intro i hi
    have hr : i < ds.length := by omega
    rw [sumRange, show i + (m + 1) - i = m + 1 by omega,
      List.drop_eq_getElem_cons hr, List.take_succ_cons, List.sum_cons]
    have h2 : ((ds.drop (i + 1)).take m).sum = sumRange ds (i + 1) (i + 1 + m) := by
      rw [sumRange, show i + 1 + m - (i + 1) = m by omega]
    rw [h2, ih (i + 1) (by omega),
      Finset.sum_eq_sum_Ico_succ_bot (by omega : i < i + (m + 1))]
    have h3 : ds.getD i 0 = ds[i] := by
      simp [List.getD_eq_getElem?_getD, List.getElem?_eq_getElem hr]
    rw [h3, show i + 1 + m = i + (m + 1) by omega]

lemma sumRange_eq_sum_Ico (ds : List ℚ) (i j : ℕ) (h : j ≤ ds.length) :
    sumRange ds i j = ∑ k ∈ Finset.Ico i j, ds.getD k 0 := by
  rcases le_or_lt j i with hij | hij
  · rw [sumRange, Nat.sub_eq_zero_of_le hij]
    simp [Finset.Ico_eq_empty (not_lt.mpr hij)]
  · have := sumRange_add_eq ds (j - i) i (by omega)
    rwa [show i + (j - i) = j by omega] at this

lemma runPairs_cons_ok (solve : Solver) (p : BARParams) (t : EnergyTable)
    (k : ℕ) (ks : List ℕ) (ds dds : List ℚ)
    (h : runPairs solve p t (k :: ks) = .ok (ds, dds)) :
    ∃ df ddf ds' dds', pairStep solve p t k = .ok (df, ddf)
      ∧ runPairs solve p t ks = .ok (ds', dds')
      ∧ ds = df :: ds' ∧ dds = ddf ^ 2 :: dds' := by
  rw [runPairs] at h
  cases hp : pairStep solve p t k with
  | error e => rw [hp] at h; exact absurd h (by simp)
  | ok v =>
    obtain ⟨df, ddf⟩ := v
    rw [hp] at h
    cases hr : runPairs solve p t ks with
    | error e => rw [hr] at h; exact absurd h (by simp)
    | ok w =>
      obtain ⟨ds', dds'⟩ := w
      rw [hr] at h
      simp only [Except.ok.injEq, Prod.mk.injEq] at h
      exact ⟨df, ddf, ds', dds', rfl, rfl, h.1.symm, h.2.symm⟩

lemma runPairs_length (solve : Solver) (p : BARParams) (t : EnergyTable) :
    ∀ (ks : List ℕ) (ds dds : List ℚ),
      runPairs solve p t ks = .ok (ds, dds) →
      ds.length = ks.length ∧ dds.length = ks.length := by
  intro ks
  induction ks with
  | nil =>
    intro ds dds h
    rw [runPairs] at h
    simp only [Except.ok.injEq, Prod.mk.injEq] at h
    simp [← h.1, ← h.2]
  | cons k ks ih =>
    intro ds dds h
    obtain ⟨df, ddf, ds', dds', _, hr, hds, hdds⟩ := runPairs_cons_ok _ _ _ _ _ _ _ h
    obtain ⟨h1, h2⟩ := ih ds' dds' hr
    subst hds hdds
    simp [h1, h2]

lemma runPairs_spec (solve : Solver) (p : BARParams) (t : EnergyTable) :
    ∀ (ks : List ℕ) (ds dds : List ℚ),
      runPairs solve p t ks = .ok (ds, dds) →
      ∀ i, i < ks.length →
      ∃ df ddf, pairStep solve p t (ks.getD i 0) = .ok (df, ddf)
        ∧ ds.getD i 0 = df ∧ dds.getD i 0 = ddf ^ 2 := by
  intro ks
  induction ks with
  | nil => intro ds dds _ i hi; simp at hi
  | cons k ks ih =>
    intro ds dds h i hi
    obtain ⟨df, ddf, ds', dds', hp, hr, hds, hdds⟩ := runPairs_cons_ok _ _ _ _ _ _ _ h
    subst hds hdds
    cases i with
    | zero => exact ⟨df, ddf, hp, rfl, rfl⟩
    | succ m =>
      simp only [List.length_cons] at hi
      obtain ⟨df', ddf', hp', h1, h2⟩ := ih ds' dds' hr m (by omega)
      exact ⟨df', ddf', by simpa using hp', by simpa using h1, by simpa using h2⟩

lemma runPairs_sq_nonneg (solve : Solver) (p : BARParams) (t : EnergyTable) :
    ∀ (ks : List ℕ) (ds dds : List ℚ),
      runPairs solve p t ks = .ok (ds, dds) → ∀ x ∈ dds, 0 ≤ x := by
  intro ks
  induction ks with
  | nil =>
    intro ds dds h
    rw [runPairs] at h
    simp only [Except.ok.injEq, Prod.mk.injEq] at h
    simp [← h.2]
  | cons k ks ih =>
    intro ds dds h x hx
    obtain ⟨df, ddf, ds', dds', _, hr, hds, hdds⟩ := runPairs_cons_ok _ _ _ _ _ _ _ h
    subst hdds
    rcases List.mem_cons.mp hx with h1 | h1
    · subst h1; positivity
    · exact ih ds' dds' hr x h1

lemma fit_ok_elim (solve : Solver) (p : BARParams) (t : EnergyTable) (res : FitResult)
    (h : fit solve p t = .ok res) :
    res.states_ = t.columns
      ∧ runPairs solve p t (List.range (t.columns.length - 1))
          = .ok (res.deltas, res.d_deltas) := by
  rw [fit] at h
  cases hr : runPairs solve p t (List.range (t.columns.length - 1)) with
  | error e => rw [hr] at h; exact absurd h (by simp)
  | ok w =>
    obtain ⟨ds, dds⟩ := w
    rw [hr] at h
    simp only [Except.ok.injEq] at h
    subst h
    exact ⟨rfl, rfl⟩

lemma fit_deltas_length (solve : Solver) (p : BARParams) (t : EnergyTable) (res : FitResult)
    (h : fit solve p t = .ok res) :
    res.deltas.length = t.columns.length - 1
      ∧ res.d_deltas.length = t.columns.length - 1 := by
  obtain ⟨_, hr⟩ := fit_ok_elim solve p t res h
  have := runPairs_length solve p t _ _ _ hr
  simpa using this

/-! ### Stability of the sort with respect to grouping -/

lemma groupOf_sortRows (rows : List Sample) (s : Label) :
    groupOf (sortRows rows) s = groupOf rows s := by
  have hpair : (groupOf rows s).Pairwise (fun a b : Sample => a.label ≤ b.label) := by
    apply List.pairwise_of_forall_mem_list
    intro a ha b hb
    simp only [groupOf] at ha hb
    have ha' : a.label = s := by simpa using (List.mem_filter.mp ha).2
    have hb' : b.label = s := by simpa using (List.mem_filter.mp hb).2
    rw [ha', hb']
  have hsub : List.Sublist (groupOf rows s) (sortRows rows) := by
    simp only [groupOf, sortRows]
    exact List.sublist_insertionSort hpair (List.filter_sublist rows)
  have hself : (groupOf rows s).filter (fun r => r.label == s) = groupOf rows s := by
    apply List.filter_eq_self.mpr
    intro a ha
    simp only [groupOf] at ha
    exact (List.mem_filter.mp ha).2
  have hsub2 : List.Sublist (groupOf rows s) (groupOf (sortRows rows) s) := by
    rw [← hself]
    exact hsub.filter _
  have hperm : List.Perm (groupOf (sortRows rows) s) (groupOf rows s) := by
    simp only [groupOf, sortRows]
    exact (List.perm_insertionSort _ rows).filter _
  exact (hsub2.eq_of_length hperm.length_eq.symm).symm

/-! ### Entry-level facts about the two output matrices -/

lemma delta_f_mat_eq_sumRange (ds : List ℚ) (i j : ℕ) (hij : i < j) (hj : j ≤ ds.length) :
    delta_f_mat ds i j = sumRange ds i j := by
  rw [delta_f_mat, assemble_eq, assemble_eq, if_pos ⟨hij, hj⟩,
    if_neg (by omega : ¬(j < i ∧ i ≤ ds.length))]
  ring

lemma varSum_eq_sumRange (dds : List ℚ) (i j : ℕ) (hij : i < j) (hj : j ≤ dds.length) :
    varSum dds i j = sumRange dds i j := by
  rw [varSum, assemble_eq, assemble_eq, if_pos ⟨hij, hj⟩,
    if_neg (by omega : ¬(j < i ∧ i ≤ dds.length))]
  ring

lemma varSum_symm (dds : List ℚ) (i j : ℕ) : varSum dds i j = varSum dds j i := by
  rw [varSum, varSum]
  ring

lemma varSum_diag (dds : List ℚ) (i : ℕ) : varSum dds i i = 0 := by
  rw [varSum, assemble_eq, if_neg (by omega : ¬(i < i ∧ i ≤ dds.length))]
  ring

lemma sumRange_nonneg (dds : List ℚ) (h : ∀ x ∈ dds, 0 ≤ x) (i j : ℕ) :
    0 ≤ sumRange dds i j := by
  apply List.sum_nonneg
  intro x hx
  exact h x (List.mem_of_mem_drop (List.mem_of_mem_take hx))

lemma varSum_nonneg (dds : List ℚ) (h : ∀ x ∈ dds, 0 ≤ x) (i j : ℕ) :
    0 ≤ varSum dds i j := by
  have key : ∀ r c, 0 ≤ assemble dds r c := by
    intro r c
    rw [assemble_eq]
    split
    · exact sumRange_nonneg dds h r c
    · exact le_rfl
  rw [varSum]
  exact add_nonneg (key i j) (key j i)

lemma sumRange_single (ds : List ℚ) (k : ℕ) (hk : k < ds.length) :
    sumRange ds k (k + 1) = ds.getD k 0 := by
  rw [sumRange, show k + 1 - k = 1 by omega, List.drop_eq_getElem_cons hk,
    List.take_succ_cons, List.take_zero, List.sum_cons, List.sum_nil, add_zero]
  simp [List.getD_eq_getElem?_getD, List.getElem?_eq_getElem hk]

lemma delta_f_adjacent_entry (ds : List ℚ) (k : ℕ) (hk : k < ds.length) :
    delta_f_mat ds k (k + 1) = ds.getD k 0 := by
  rw [delta_f_mat_eq_sumRange ds k (k + 1) (by omega) (by omega),
    sumRange_single ds k hk]


/-! ### Concrete fixtures for witness runs -/

/-- A constant pairwise solver for concrete runs. -/
def solve0 : Solver := fun _ _ _ _ _ => .ok (1, 2)

/-- A pairwise solver depending on every argument the code passes to it. -/
def solveProbe : Solver := fun w_F w_R mi rt v =>
  .ok (w_F.sum + 2 * w_R.sum + mi + rt + (if v then 1 else 0), (w_F.length : ℚ) + 1)

/-- The defaults of `BAR.__init__`. -/
def params0 : BARParams := ⟨10000, 1 / 10000000, none, "hybr", false⟩

/-- Same solver-relevant settings as `params0` but a different `method` and a
non-`None` `initial_f_k`. -/
def paramsB : BARParams := ⟨10000, 1 / 10000000, some [0, 0], "BFGS", false⟩

/-- A 2-state table with one sample from each state. -/
def table2 : EnergyTable := ⟨[0, 1], [⟨0, [0, 0]⟩, ⟨1, [0, 0]⟩], by decide⟩

/-- A 3-state table, rows deliberately out of label order. -/
def table3 : EnergyTable :=
  ⟨[0, 1, 2], [⟨2, [0, 1, 3]⟩, ⟨0, [0, 2, 0]⟩, ⟨1, [1, 0, 0]⟩], by decide⟩

/-! ### C2 -/

/-- C2: for every successful run of `fit`, the output difference matrix is
antisymmetric (`delta_f_[i,j] = -delta_f_[j,i]`) with zero diagonal. -/
theorem fit_delta_f_antisymmetric (solve : Solver) (p : BARParams) (t : EnergyTable)
    (res : FitResult) (h : fit solve p t = .ok res) (i j : ℕ) :
    delta_f_mat res.deltas i j = - delta_f_mat res.deltas j i
      ∧ delta_f_mat res.deltas i i = 0 := by
  constructor
  · rw [delta_f_mat, delta_f_mat]; ring
  · rw [delta_f_mat]; ring

/-- Witness for C2 at a concrete successful run. -/
theorem fit_delta_f_antisymmetric_witness :
    delta_f_mat (FitResult.mk [0, 1, 2] [1, 1] [4, 4]).deltas 0 2
        = - delta_f_mat (FitResult.mk [0, 1, 2] [1, 1] [4, 4]).deltas 2 0
      ∧ delta_f_mat (FitResult.mk [0, 1, 2] [1, 1] [4, 4]).deltas 0 0 = 0 :=
  fit_delta_f_antisymmetric solve0 params0 table3 ⟨[0, 1, 2], [1, 1], [4, 4]⟩ (by decide) 0 2

/-! ### C5 -/

/-- C5: for every successful run of `fit` and every chain position `k`, the
adjacent entry `delta_f_[k, k+1]` is exactly the estimate `df_k` returned by
the pairwise solver call for the pair `(k, k+1)`. -/
theorem fit_delta_f_adjacent (solve : Solver) (p : BARParams) (t : EnergyTable)
    (res : FitResult) (h : fit solve p t = .ok res) (k : ℕ)
    (hk : k + 1 < res.states_.length) :
    ∃ ddf, pairStep solve p t k = .ok (res.deltas.getD k 0, ddf)
      ∧ delta_f_mat res.deltas k (k + 1) = res.deltas.getD k 0 := by
  obtain ⟨hst, hr⟩ := fit_ok_elim solve p t res h
  have hlen := runPairs_length solve p t _ _ _ hr
  have hK : res.deltas.length = t.columns.length - 1 := by simpa using hlen.1
  have hkK : k < t.columns.length - 1 := by rw [hst] at hk; omega
  obtain ⟨df, ddf, hp, h1, h2⟩ :=
    runPairs_spec solve p t _ _ _ hr k (by simpa using hkK)
  rw [List.getD_eq_getElem?_getD, List.getElem?_range hkK] at hp
  simp only [Option.getD_some] at hp
  refine ⟨ddf, ?_, delta_f_adjacent_entry _ _ (by omega)⟩
  rw [h1]
  exact hp

/-- Witness for C5 at a concrete successful run. -/
theorem fit_delta_f_adjacent_witness :
    ∃ ddf, pairStep solve0 params0 table3 1
        = .ok ((FitResult.mk [0, 1, 2] [1, 1] [4, 4]).deltas.getD 1 0, ddf)
      ∧ delta_f_mat (FitResult.mk [0, 1, 2] [1, 1] [4, 4]).deltas 1 2
        = (FitResult.mk [0, 1, 2] [1, 1] [4, 4]).deltas.getD 1 0 :=
  fit_delta_f_adjacent solve0 params0 table3 ⟨[0, 1, 2], [1, 1], [4, 4]⟩ (by decide) 1
    (by decide)

/-! ### C1 -/

/-- C1: for every successful run of `fit` and all chain positions `i < j`,
`delta_f_[i,j]` is the sum of the adjacent entries
`delta_f_[i,i+1] + ... + delta_f_[j-1,j]`, i.e. the sum of the pairwise
estimates `df_i .. df_{j-1}`. -/
theorem fit_delta_f_transitive (solve : Solver) (p : BARParams) (t : EnergyTable)
    (res : FitResult) (h : fit solve p t = .ok res) (i j : ℕ)
    (hij : i < j) (hj : j < res.states_.length) :
    delta_f_mat res.deltas i j
        = ∑ k ∈ Finset.Ico i j, delta_f_mat res.deltas k (k + 1)
      ∧ delta_f_mat res.deltas i j = ∑ k ∈ Finset.Ico i j, res.deltas.getD k 0 := by
  obtain ⟨hst, hr⟩ := fit_ok_elim solve p t res h
  have hK : res.deltas.length = t.columns.length - 1 :=
    by simpa using (runPairs_length solve p t _ _ _ hr).1
  have hjlen : j ≤ res.deltas.length := by rw [hst] at hj; omega
  have h2 := delta_f_mat_eq_sumRange res.deltas i j hij hjlen
  have h3 := sumRange_eq_sum_Ico res.deltas i j hjlen
  refine ⟨?_, by rw [h2, h3]⟩
  rw [h2, h3]
  apply Finset.sum_congr rfl
  intro k hk
  rw [Finset.mem_Ico] at hk
  rw [delta_f_adjacent_entry res.deltas k (by omega)]

/-- Witness for C1 at a concrete successful run with a non-adjacent pair. -/
theorem fit_delta_f_transitive_witness :
    delta_f_mat (FitResult.mk [0, 1, 2] [1, 1] [4, 4]).deltas 0 2
        = ∑ k ∈ Finset.Ico 0 2, delta_f_mat (FitResult.mk [0, 1, 2] [1, 1] [4, 4]).deltas k (k + 1)
      ∧ delta_f_mat (FitResult.mk [0, 1, 2] [1, 1] [4, 4]).deltas 0 2
        = ∑ k ∈ Finset.Ico 0 2, (FitResult.mk [0, 1, 2] [1, 1] [4, 4]).deltas.getD k 0 :=
  fit_delta_f_transitive solve0 params0 table3 ⟨[0, 1, 2], [1, 1], [4, 4]⟩ (by decide) 0 2
    (by decide) (by decide)


/-! ### C6 -/

/-- C6: provided both adjacent groups are nonempty, the pairwise step at chain
position `k` calls the solver with `w_F` = (potential at column `k+1` minus at
column `k`) over exactly the original table's samples of origin state `k` (in
their original order, by stability of the sort), `w_R` symmetrically over the
samples of origin state `k+1`. -/
theorem fit_work_sequences (solve : Solver) (p : BARParams) (t : EnergyTable) (k : ℕ)
    (hk : groupOf t.rows (t.columns.getD k 0) ≠ [])
    (hk1 : groupOf t.rows (t.columns.getD (k + 1) 0) ≠ []) :
    pairStep solve p t k =
      solve ((groupOf t.rows (t.columns.getD k 0)).map
              (fun r => r.u.getD (k + 1) 0 - r.u.getD k 0))
            ((groupOf t.rows (t.columns.getD (k + 1) 0)).map
              (fun r => r.u.getD k 0 - r.u.getD (k + 1) 0))
            p.maximum_iterations p.relative_tolerance p.verbose := by
  have e1 : get_group (sortRows t.rows) (t.columns.getD k 0)
      = .ok (groupOf t.rows (t.columns.getD k 0)) := by
    rw [get_group, groupOf_sortRows, if_neg]
    simpa using hk
  have e2 : get_group (sortRows t.rows) (t.columns.getD (k + 1) 0)
      = .ok (groupOf t.rows (t.columns.getD (k + 1) 0)) := by
    rw [get_group, groupOf_sortRows, if_neg]
    simpa using hk1
  rw [pairStep, e1, e2]

/-- Witness for C6 at a concrete table whose rows are out of label order. -/
theorem fit_work_sequences_witness :
    groupOf table3.rows (table3.columns.getD 0 0) ≠ []
      ∧ groupOf table3.rows (table3.columns.getD 1 0) ≠ []
      ∧ pairStep solveProbe params0 table3 0 =
          solveProbe ((groupOf table3.rows (table3.columns.getD 0 0)).map
                  (fun r => r.u.getD 1 0 - r.u.getD 0 0))
                ((groupOf table3.rows (table3.columns.getD 1 0)).map
                  (fun r => r.u.getD 0 0 - r.u.getD 1 0))
                params0.maximum_iterations params0.relative_tolerance params0.verbose :=
  ⟨by decide, by decide,
    fit_work_sequences solveProbe params0 table3 0 (by decide) (by decide)⟩


/-! ### Error propagation through the pairwise loop -/

lemma pairStep_error_left (solve : Solver) (p : BARParams) (t : EnergyTable) (k : ℕ)
    (h : groupOf t.rows (t.columns.getD k 0) = []) :
    pairStep solve p t k = .error "KeyError" := by
  rw [pairStep, get_group, groupOf_sortRows, h]
  rfl

lemma pairStep_error_right (solve : Solver) (p : BARParams) (t : EnergyTable) (k : ℕ)
    (h : groupOf t.rows (t.columns.getD (k + 1) 0) = []) :
    ∃ e, pairStep solve p t k = .error e := by
  have e2 : get_group (sortRows t.rows) (t.columns.getD (k + 1) 0) = .error "KeyError" := by
    rw [get_group, groupOf_sortRows, h]
    rfl
  rw [pairStep]
  cases hg : get_group (sortRows t.rows) (t.columns.getD k 0) with
  | error e => exact ⟨e, rfl⟩
  | ok uk => exact ⟨"KeyError", by rw [e2]⟩

lemma runPairs_error_of_mem (solve : Solver) (p : BARParams) (t : EnergyTable) :
    ∀ (ks : List ℕ) (k : ℕ), k ∈ ks → (∃ e, pairStep solve p t k = .error e) →
      ∃ e, runPairs solve p t ks = .error e := by
  intro ks
  induction ks with
  | nil => intro k hk _; simp at hk
  | cons a ks ih =>
    intro k hk he
    obtain ⟨e, he⟩ := he
    rw [runPairs]
    cases hp : pairStep solve p t a with
    | error e2 => exact ⟨e2, rfl⟩
    | ok v =>
      obtain ⟨df, ddf⟩ := v
      have hk' : k ∈ ks := by
        rcases List.mem_cons.mp hk with h1 | h1
        · subst h1; rw [hp] at he; exact absurd he (by simp)
        · exact h1
      obtain ⟨e2, he2⟩ := ih k hk' ⟨e, he⟩
      rw [he2]
      exact ⟨e2, rfl⟩


/-! ### The attribute-level view of fit (frame effects) -/

/-- The three attributes `fit` mutates on the estimator object (source lines
80, 124 and 129): `states_`, `delta_f_` and `d_delta_f_`.  `delta_f_` is
stored as the K×K rational grid `adelta - adelta.T`; `d_delta_f_` is the
entrywise real square root of the rational grid `ad_delta + ad_delta.T`
stored here, so one is assigned exactly when the other is. -/
structure BARAttrs where
  states_ : Option (List Label)
  delta_f_ : Option (List (List ℚ))
  d_delta_f_sq : Option (List (List ℚ))
deriving DecidableEq

/-- A freshly constructed estimator: no attribute assigned. -/
def freshAttrs : BARAttrs := ⟨none, none, none⟩

/-- Materialize a K×K matrix function as a grid of rationals. -/
def toGrid (K : ℕ) (f : ℕ → ℕ → ℚ) : List (List ℚ) :=
  (List.range K).map (fun r => (List.range K).map (fun c => f r c))

/-- `fit` as a mutation of the estimator attributes: `self.states_` is
assigned before the pairwise loop runs; the two matrices are assigned only
after the whole loop has succeeded.  The second component is the raised
exception, if any. -/
def fitS (solve : Solver) (p : BARParams) (t : EnergyTable) (a : BARAttrs) :
    BARAttrs × Option String :=
  let a1 : BARAttrs := { a with states_ := some t.columns }
  match runPairs solve p t (List.range (t.columns.length - 1)) with
  | .error e => (a1, some e)
  | .ok (ds, dds) =>
    ({ a1 with
        delta_f_ := some (toGrid t.columns.length (delta_f_mat ds)),
        d_delta_f_sq := some (toGrid t.columns.length (varSum dds)) }, none)

/-! ### C10 -/

/-- C10: when `fit` raises (a solver failure or a group lookup failure), the
estimator's `states_` has already been overwritten with the input's column
list, while the two matrix attributes are left exactly as they were. -/
theorem fit_error_assigns_states_only (solve : Solver) (p : BARParams)
    (t : EnergyTable) (a a' : BARAttrs) (e : String)
    (h : fitS solve p t a = (a', some e)) :
    a'.states_ = some t.columns ∧ a'.delta_f_ = a.delta_f_
      ∧ a'.d_delta_f_sq = a.d_delta_f_sq := by
  rw [fitS] at h
  cases hr : runPairs solve p t (List.range (t.columns.length - 1)) with
  | error e2 =>
    rw [hr] at h
    simp only [Prod.mk.injEq] at h
    rw [← h.1]
    exact ⟨rfl, rfl, rfl⟩
  | ok w =>
    obtain ⟨ds, dds⟩ := w
    rw [hr] at h
    exact absurd h (by simp)

/-- A 2-state table in which state `1` has zero samples. -/
def table2bad : EnergyTable := ⟨[0, 1], [⟨0, [0, 0]⟩], by decide⟩

/-- Witness for C10 at a concrete failing run. -/
theorem fit_error_assigns_states_only_witness :
    BARAttrs.states_ ⟨some [0, 1], none, none⟩ = some table2bad.columns
      ∧ BARAttrs.delta_f_ ⟨some [0, 1], none, none⟩ = freshAttrs.delta_f_
      ∧ BARAttrs.d_delta_f_sq ⟨some [0, 1], none, none⟩ = freshAttrs.d_delta_f_sq :=
  fit_error_assigns_states_only solve0 params0 table2bad freshAttrs
    ⟨some [0, 1], none, none⟩ "KeyError" (by decide)


/-! ### C7 -/

/-- C7 (amended): in a table with at least two states, a state whose group has
zero samples makes `fit` raise before either output matrix is assigned: the
run ends with an error and the matrix attributes still unset. -/
theorem fit_empty_group_error (solve : Solver) (p : BARParams) (t : EnergyTable)
    (hK : 2 ≤ t.columns.length) (s : Label) (hs : s ∈ t.columns)
    (hempty : groupOf t.rows s = []) :
    ∃ e a, fitS solve p t freshAttrs = (a, some e)
      ∧ a.delta_f_ = none ∧ a.d_delta_f_sq = none := by
  have hidx : t.columns.indexOf s < t.columns.length := List.indexOf_lt_length.mpr hs
  have hcol : ∀ m, t.columns[m]? = some s → t.columns.getD m 0 = s := by
    intro m hm
    rw [List.getD_eq_getElem?_getD, hm, Option.getD_some]
  have hidxval : t.columns[t.columns.indexOf s]? = some s := by
    rw [List.getElem?_eq_getElem hidx, List.getElem_indexOf hidx]
  have herr : ∃ k, k ∈ List.range (t.columns.length - 1)
      ∧ ∃ e, pairStep solve p t k = .error e := by
    rcases lt_or_ge (t.columns.indexOf s) (t.columns.length - 1) with hlt | hge
    · refine ⟨t.columns.indexOf s, List.mem_range.mpr hlt, "KeyError", ?_⟩
      apply pairStep_error_left
      rw [hcol _ hidxval, hempty]
    · have hko : t.columns.indexOf s = t.columns.length - 1 := by omega
      refine ⟨t.columns.length - 2, List.mem_range.mpr (by omega), ?_⟩
      apply pairStep_error_right
      have h1 : t.columns.length - 2 + 1 = t.columns.length - 1 := by omega
      have h2 : t.columns.getD (t.columns.length - 2 + 1) 0 = s := by
        apply hcol
        rw [h1, ← hko]
        exact hidxval
      rw [h2, hempty]
  obtain ⟨k, hkmem, he⟩ := herr
  obtain ⟨e, hre⟩ := runPairs_error_of_mem solve p t _ k hkmem he
  refine ⟨e, ⟨some t.columns, none, none⟩, ?_, rfl, rfl⟩
  rw [fitS, hre]
  rfl

/-- Witness for C7 at a concrete 2-state table whose second state is empty. -/
theorem fit_empty_group_error_witness :
    ∃ e a, fitS solve0 params0 table2bad freshAttrs = (a, some e)
      ∧ a.delta_f_ = none ∧ a.d_delta_f_sq = none :=
  fit_empty_group_error solve0 params0 table2bad (by decide) 1 (by decide) (by decide)

/-- A 1-state table with no samples at all. -/
def table1empty : EnergyTable := ⟨[0], [], by decide⟩

unseal Rat.add Rat.sub Rat.mul in
/-- C7 counterexample: with a single state whose group has zero samples, `fit`
does not raise at all: it succeeds and assigns both (1×1 zero) matrices. -/
theorem fit_empty_group_counterexample :
    (0 : Label) ∈ table1empty.columns ∧ groupOf table1empty.rows 0 = []
      ∧ fitS solve0 params0 table1empty freshAttrs
          = (⟨some [0], some [[0]], some [[0]]⟩, none) := by decide


/-! ### C8 -/

/-- C8 (amended): each pairwise solver call receives only `maximum_iterations`,
`relative_tolerance` and `verbose` from the configuration; two configurations
agreeing on those three fields produce identical runs for every solver,
whatever their `method` and `initial_f_k`. -/
theorem fit_passes_three_solver_options (solve : Solver) (p q : BARParams)
    (t : EnergyTable) (h1 : p.maximum_iterations = q.maximum_iterations)
    (h2 : p.relative_tolerance = q.relative_tolerance) (h3 : p.verbose = q.verbose) :
    fit solve p t = fit solve q t := by
  have hps : ∀ k, pairStep solve p t k = pairStep solve q t k := by
    intro k
    rw [pairStep, pairStep, h1, h2, h3]
  have hrp : ∀ ks, runPairs solve p t ks = runPairs solve q t ks := by
    intro ks
    induction ks with
    | nil => rfl
    | cons k ks ih => rw [runPairs, runPairs, hps, ih]
  rw [fit, fit, hrp]

/-- Witness for C8 (amended) at two concrete configurations. -/
theorem fit_passes_three_solver_options_witness :
    fit solveProbe params0 table3 = fit solveProbe paramsB table3 :=
  fit_passes_three_solver_options solveProbe params0 paramsB table3 rfl rfl rfl

unseal Rat.add Rat.sub Rat.mul Rat.inv in
/-- C8 counterexample: the two configurations differ in `method` and
`initial_f_k`, yet even a solver sensitive to every argument it receives
produces the same result under both, because those two options are never
passed to the pairwise calls. -/
theorem fit_method_not_passed_counterexample :
    params0.method ≠ paramsB.method ∧ params0.initial_f_k ≠ paramsB.initial_f_k
      ∧ fit solveProbe params0 table3 = fit solveProbe paramsB table3 := by
  refine ⟨by decide, by decide, ?_⟩
  decide

/-! ### C9 -/

/-- A table whose single column does not match its two distinct origin
states. -/
def tableMis : EnergyTable := ⟨[0], [⟨1, [5]⟩, ⟨2, [7]⟩], by decide⟩

/-- C9 counterexample: the number of distinct origin states (2) differs from
the column count (1), yet `fit` performs no validation and returns
successfully. -/
theorem fit_no_validation_counterexample :
    (tableMis.rows.map (fun r => r.label)).dedup.length ≠ tableMis.columns.length
      ∧ fit solve0 params0 tableMis = .ok ⟨[0], [], []⟩ := by decide

/-- C9 (amended): `fit` performs no up-front validation of the origin states
against the columns.  Rows whose origin state is not among the columns are
silently ignored: appending them to any table leaves the result unchanged.
(A column whose state has no samples only surfaces lazily, as a `KeyError`
from a group lookup inside the pairwise loop.) -/
theorem fit_ignores_unknown_origin_rows (solve : Solver) (p : BARParams)
    (cols : List Label) (rows extra : List Sample)
    (hr1 : ∀ r ∈ rows ++ extra, r.u.length = cols.length)
    (hr2 : ∀ r ∈ rows, r.u.length = cols.length)
    (hex : ∀ r ∈ extra, r.label ∉ cols) :
    fit solve p ⟨cols, rows ++ extra, hr1⟩ = fit solve p ⟨cols, rows, hr2⟩ := by
  have hgroup : ∀ s ∈ cols, groupOf (rows ++ extra) s = groupOf rows s := by
    intro s hs
    rw [groupOf, groupOf, List.filter_append]
    have hnil : extra.filter (fun r => r.label == s) = [] := by
      apply List.filter_eq_nil_iff.mpr
      intro r hr
      simp only [beq_iff_eq]
      intro hlab
      exact hex r hr (hlab ▸ hs)
    rw [hnil, List.append_nil]
  have hmem : ∀ m, m < cols.length → cols.getD m 0 ∈ cols := by
    intro m hm
    rw [List.getD_eq_getElem?_getD, List.getElem?_eq_getElem hm, Option.getD_some]
    exact List.getElem_mem hm
  have hgg : ∀ m, m < cols.length →
      get_group (sortRows (rows ++ extra)) (cols.getD m 0)
        = get_group (sortRows rows) (cols.getD m 0) := by
    intro m hm
    rw [get_group, get_group, groupOf_sortRows, groupOf_sortRows,
      hgroup _ (hmem m hm)]
  have hps : ∀ k, k + 1 < cols.length →
      pairStep solve p ⟨cols, rows ++ extra, hr1⟩ k
        = pairStep solve p ⟨cols, rows, hr2⟩ k := by
    intro k hk
    rw [pairStep, pairStep]
    rw [hgg k (by omega), hgg (k + 1) hk]
  have hrp : ∀ ks, (∀ k ∈ ks, k + 1 < cols.length) →
      runPairs solve p ⟨cols, rows ++ extra, hr1⟩ ks
        = runPairs solve p ⟨cols, rows, hr2⟩ ks := by
    intro ks
    induction ks with
    | nil => intro _; rfl
    | cons k ks ih =>
      intro hall
      rw [runPairs, runPairs, hps k (hall k (List.mem_cons_self k ks)),
        ih (fun k2 hk2 => hall k2 (List.mem_cons_of_mem k hk2))]
  rw [fit, fit]
  rw [hrp (List.range (cols.length - 1))
      (fun k hk => by rw [List.mem_range] at hk; omega)]

/-- Witness for C9 (amended): appending a row with an unknown origin state to
a concrete table does not change the result. -/
theorem fit_ignores_unknown_origin_rows_witness :
    fit solve0 params0 ⟨[0, 1], [⟨0, [0, 0]⟩, ⟨1, [0, 0]⟩, ⟨5, [9, 9]⟩], by decide⟩
      = fit solve0 params0 ⟨[0, 1], [⟨0, [0, 0]⟩, ⟨1, [0, 0]⟩], by decide⟩ :=
  fit_ignores_unknown_origin_rows solve0 params0 [0, 1]
    [⟨0, [0, 0]⟩, ⟨1, [0, 0]⟩] [⟨5, [9, 9]⟩] (by decide) (by decide) (by decide)


/-! ### C4 -/

/-- C4: for every successful run of `fit`, the uncertainty matrix is symmetric
with nonnegative entries and zero diagonal. -/
theorem fit_d_delta_f_symmetric_nonneg (solve : Solver) (p : BARParams)
    (t : EnergyTable) (res : FitResult) (h : fit solve p t = .ok res) (i j : ℕ) :
    d_delta_f_mat res.d_deltas i j = d_delta_f_mat res.d_deltas j i
      ∧ 0 ≤ d_delta_f_mat res.d_deltas i j
      ∧ d_delta_f_mat res.d_deltas i i = 0 := by
  refine ⟨?_, Real.sqrt_nonneg _, ?_⟩
  · rw [d_delta_f_mat, d_delta_f_mat, varSum_symm]
  · rw [d_delta_f_mat, varSum_diag]
    simp

/-- Witness for C4 at a concrete successful run. -/
theorem fit_d_delta_f_symmetric_nonneg_witness :
    d_delta_f_mat (FitResult.mk [0, 1, 2] [1, 1] [4, 4]).d_deltas 0 2
        = d_delta_f_mat (FitResult.mk [0, 1, 2] [1, 1] [4, 4]).d_deltas 2 0
      ∧ 0 ≤ d_delta_f_mat (FitResult.mk [0, 1, 2] [1, 1] [4, 4]).d_deltas 0 2
      ∧ d_delta_f_mat (FitResult.mk [0, 1, 2] [1, 1] [4, 4]).d_deltas 0 0 = 0 :=
  fit_d_delta_f_symmetric_nonneg solve0 params0 table3 ⟨[0, 1, 2], [1, 1], [4, 4]⟩
    (by decide) 0 2

/-! ### C3 -/

/-- C3: for every successful run of `fit` and all chain positions `i < j`, the
squared uncertainty `d_delta_f_[i,j] ** 2` is the sum of the squared adjacent
uncertainties `d_delta_f_[k,k+1] ** 2` for `k` in `[i, j-1]`, each of which is
the squared standard error `ddf_k ** 2` returned by the pairwise solver. -/
theorem fit_d_delta_f_variance_additive (solve : Solver) (p : BARParams)
    (t : EnergyTable) (res : FitResult) (h : fit solve p t = .ok res) (i j : ℕ)
    (hij : i < j) (hj : j < res.states_.length) :
    d_delta_f_mat res.d_deltas i j ^ 2
        = ∑ k ∈ Finset.Ico i j, d_delta_f_mat res.d_deltas k (k + 1) ^ 2
      ∧ ∀ k ∈ Finset.Ico i j, ∃ df ddf, pairStep solve p t k = .ok (df, ddf)
          ∧ d_delta_f_mat res.d_deltas k (k + 1) ^ 2 = (ddf : ℝ) ^ 2 := by
  obtain ⟨hst, hr⟩ := fit_ok_elim solve p t res h
  have hK : res.d_deltas.length = t.columns.length - 1 :=
    by simpa using (runPairs_length solve p t _ _ _ hr).2
  have hnn : ∀ x ∈ res.d_deltas, 0 ≤ x := runPairs_sq_nonneg solve p t _ _ _ hr
  have hjlen : j ≤ res.d_deltas.length := by rw [hst] at hj; omega
  have sq_entry : ∀ a b : ℕ, d_delta_f_mat res.d_deltas a b ^ 2
      = ((varSum res.d_deltas a b : ℚ) : ℝ) := by
    intro a b
    rw [d_delta_f_mat, Real.sq_sqrt]
    exact_mod_cast varSum_nonneg res.d_deltas hnn a b
  have adj : ∀ k, k < res.d_deltas.length →
      d_delta_f_mat res.d_deltas k (k + 1) ^ 2 = ((res.d_deltas.getD k 0 : ℚ) : ℝ) := by
    intro k hk
    rw [sq_entry, varSum_eq_sumRange res.d_deltas k (k + 1) (by omega) (by omega),
      sumRange_single res.d_deltas k hk]
  constructor
  · rw [sq_entry, varSum_eq_sumRange res.d_deltas i j hij hjlen,
      sumRange_eq_sum_Ico res.d_deltas i j hjlen]
    push_cast
    apply Finset.sum_congr rfl
    intro k hk
    rw [Finset.mem_Ico] at hk
    rw [adj k (by omega)]
  · intro k hk
    rw [Finset.mem_Ico] at hk
    have hkK : k < t.columns.length - 1 := by omega
    obtain ⟨df, ddf, hp, h1, h2⟩ :=
      runPairs_spec solve p t _ _ _ hr k (by simpa using hkK)
    rw [List.getD_eq_getElem?_getD, List.getElem?_range hkK] at hp
    simp only [Option.getD_some] at hp
    refine ⟨df, ddf, hp, ?_⟩
    rw [adj k (by omega), h2]
    push_cast
    ring

/-- Witness for C3 at a concrete successful run with a non-adjacent pair. -/
theorem fit_d_delta_f_variance_additive_witness :
    (d_delta_f_mat (FitResult.mk [0, 1, 2] [1, 1] [4, 4]).d_deltas 0 2 ^ 2
        = ∑ k ∈ Finset.Ico 0 2,
            d_delta_f_mat (FitResult.mk [0, 1, 2] [1, 1] [4, 4]).d_deltas k (k + 1) ^ 2)
      ∧ ∀ k ∈ Finset.Ico 0 2, ∃ df ddf, pairStep solve0 params0 table3 k = .ok (df, ddf)
          ∧ d_delta_f_mat (FitResult.mk [0, 1, 2] [1, 1] [4, 4]).d_deltas k (k + 1) ^ 2
            = (ddf : ℝ) ^ 2 :=
  fit_d_delta_f_variance_additive solve0 params0 table3 ⟨[0, 1, 2], [1, 1], [4, 4]⟩
    (by decide) 0 2 (by decide) (by decide)

end Alchemlyb
